import Mathlib

/-!
Verification of the pantry ledger engine (`src/pantry_manager.py` together with
`src/pantry_models.py`).

The Python engine mutates `InventoryItem` objects in place, and the same object
can be reachable both from `PantryManager.inventory` and from a food
`Donation.details` list.  To stay faithful to this aliasing we model the heap
explicitly: a `store : List InventoryItem` holds every `InventoryItem` object
ever constructed, and both the inventory and food-donation details are lists of
references (indices) into this store.  All other data (households, distribution
records, money amounts) is plain immutable data in the Python program as used
by the engine, so it is embedded directly as values.

Python `int` is unbounded, so quantities, sizes, ids and money amounts are
`Int`.  `date.today().isoformat()` is an external input and is passed to each
operation as a `today : String` argument.  Exceptions are modelled as a value
carrying the Python exception class name and the message string; an operation
that can raise returns the (possibly partially mutated, as in Python) state
alongside the `Except` result.
-/

/-- `InventoryItem` from `pantry_models.py`: name, integer quantity,
expiration date string. -/
structure InventoryItem where
  name : String
  quantity : Int
  expiration_date : String
deriving DecidableEq, Repr

instance : Inhabited InventoryItem := ⟨⟨"", 0, ""⟩⟩

/-- A reference to an `InventoryItem` object on the heap (an index into the
store). -/
abbrev Ref := Nat

/-- Read an object from the heap. -/
def getObj (store : List InventoryItem) (r : Ref) : InventoryItem :=
  store.getD r default

/-- The `details` field of a `Donation`: a list of `InventoryItem` objects for
a food donation (modelled as heap references), or a bare number for a money
donation. -/
inductive DonationDetails where
  | food (items : List Ref)
  | money (amount : Int)
deriving DecidableEq, Repr

/-- `Donation` from `pantry_models.py`. -/
structure Donation where
  donor : String
  type : String
  details : DonationDetails
  date : String
deriving DecidableEq, Repr

/-- `Household` from `pantry_models.py`. -/
structure Household where
  id : Int
  name : String
  size : Int
deriving DecidableEq, Repr

/-- One entry of the `items` list of a distribution request / record. -/
structure DistItem where
  name : String
  quantity : Int
deriving DecidableEq, Repr

/-- A distribution record as built by `record_distribution`. -/
structure DistributionRecord where
  household_name : String
  household_size : Int
  items : List DistItem
  date : String
deriving DecidableEq, Repr

/-- A raised Python exception: class name and message. -/
structure PyExc where
  cls : String
  msg : String
deriving DecidableEq, Repr

/-- One submitted food item (`{'name': .., 'quantity': .., 'expiration_date': ..}`). -/
structure SubmittedItem where
  name : String
  quantity : Int
  expiration_date : String
deriving DecidableEq, Repr

/-- The in-memory state of a `PantryManager`. -/
structure PantryState where
  store : List InventoryItem
  inventory : List Ref
  donations_log : List Donation
  distributions_log : List DistributionRecord
  household_queue : List Household
  next_household_id : Int
deriving DecidableEq, Repr

/-- The state of a freshly constructed manager on first run (missing data
files load as empty collections; the queue starts empty and the id counter at
1). -/
def emptyState : PantryState :=
  { store := [], inventory := [], donations_log := [], distributions_log := [],
    household_queue := [], next_household_id := 1 }

/-- Python's `str.lower()` (ASCII case folding, which covers the engine's
use), written so that it evaluates by kernel reduction. -/
def strLower (s : String) : String :=
  ⟨s.data.map Char.toLower⟩

/-- The merge test of `add_food_donation`:
`existing_item.name.lower() == new_item.name.lower() and
 existing_item.expiration_date == new_item.expiration_date`. -/
def mergeKeyMatch (existing newItem : InventoryItem) : Bool :=
  strLower existing.name == strLower newItem.name &&
    existing.expiration_date == newItem.expiration_date

/-- The inner merge loop of `add_food_donation` (lines 140-149): for each
donated object, either increment the first inventory line with matching
(lower-cased name, expiration date), or append the donated object itself to
the inventory. -/
def mergeLoop : List InventoryItem → List Ref → List Ref → List InventoryItem × List Ref
  | store, inv, [] => (store, inv)
  | store, inv, r :: rest =>
    match inv.find? (fun e => mergeKeyMatch (getObj store e) (getObj store r)) with
    | some e =>
      mergeLoop
        (store.set e { getObj store e with
                        quantity := (getObj store e).quantity + (getObj store r).quantity })
        inv rest
    | none => mergeLoop store (inv ++ [r]) rest

/-- Build an `InventoryItem` from submitted data (the constructor coerces the
quantity with `int(...)`; inputs are already integers here). -/
def toItem (d : SubmittedItem) : InventoryItem :=
  { name := d.name, quantity := d.quantity, expiration_date := d.expiration_date }

/-- `PantryManager.add_food_donation`: allocate the donated `InventoryItem`
objects, merge them into the inventory, and append a `"Food"` donation whose
details are those same objects. -/
def add_food_donation (s : PantryState) (donor_name : String)
    (food_item_data : List SubmittedItem) (today : String) : Donation × PantryState :=
  let donated := food_item_data.map toItem
  let refs := List.range' s.store.length donated.length
  let merged := mergeLoop (s.store ++ donated) s.inventory refs
  let d : Donation := { donor := donor_name, type := "Food", details := .food refs, date := today }
  (d, { s with store := merged.1, inventory := merged.2,
               donations_log := s.donations_log ++ [d] })

/-- `PantryManager.add_money_donation`: append a `"Money"` donation whose
details are the amount.  No validation is performed. -/
def add_money_donation (s : PantryState) (donor_name : String) (amount : Int)
    (today : String) : Donation × PantryState :=
  let d : Donation := { donor := donor_name, type := "Money", details := .money amount,
                        date := today }
  (d, { s with donations_log := s.donations_log ++ [d] })

/-- `PantryManager.sign_in_household`: append a household with the next id and
bump the counter.  No validation is performed. -/
def sign_in_household (s : PantryState) (household_name : String) (household_size : Int) :
    Household × PantryState :=
  let h : Household := { id := s.next_household_id, name := household_name,
                         size := household_size }
  (h, { s with household_queue := s.household_queue ++ [h],
               next_household_id := s.next_household_id + 1 })

/-- `PantryManager.remove_household_from_queue`: remove the first queue entry
with the given id, or raise `ValueError` when there is none. -/
def remove_household_from_queue (s : PantryState) (household_id : Int) :
    Except PyExc Unit × PantryState :=
  match s.household_queue.find? (fun h => h.id == household_id) with
  | some _ =>
    (.ok (), { s with household_queue := s.household_queue.eraseP (fun h => h.id == household_id) })
  | none =>
    (.error ⟨"ValueError",
      "Could not find household with ID " ++ toString household_id ++ " to remove."⟩, s)

/-- The per-item loop of `record_distribution` (lines 207-219): find the line
by case-insensitive name, raise on absence or insufficient stock, and
otherwise decrement the line in place — the decrement happens inside this same
loop, before later items are checked. -/
def distLoop (inv : List Ref) : List InventoryItem → List DistItem →
    Option PyExc × List InventoryItem
  | store, [] => (none, store)
  | store, it :: rest =>
    match inv.find? (fun r => strLower (getObj store r).name == strLower it.name) with
    | none => (some ⟨"ValueError", "Item " ++ it.name ++ " not found in inventory."⟩, store)
    | some r =>
      if (getObj store r).quantity < it.quantity then
        (some ⟨"ValueError", "Insufficient stock for " ++ it.name ++ "."⟩, store)
      else
        distLoop inv
          (store.set r { getObj store r with
                          quantity := (getObj store r).quantity - it.quantity }) rest

/-- `PantryManager.record_distribution`: locate the household, run the
check-and-decrement loop over the requested items, and on success append a
distribution record and remove the household from the queue.  On an exception
the state keeps any decrements already applied by the loop, as in the Python
code. -/
def record_distribution (s : PantryState) (household_id : Int)
    (items_taken_data : List DistItem) (today : String) :
    Except PyExc DistributionRecord × PantryState :=
  match s.household_queue.find? (fun h => h.id == household_id) with
  | none =>
    (.error ⟨"ValueError",
      "Household with ID " ++ toString household_id ++ " not found in queue."⟩, s)
  | some h =>
    match distLoop s.inventory s.store items_taken_data with
    | (some e, store2) => (.error e, { s with store := store2 })
    | (none, store2) =>
      let record : DistributionRecord :=
        { household_name := h.name, household_size := h.size,
          items := items_taken_data, date := today }
      (.ok record,
       { s with store := store2,
                distributions_log := s.distributions_log ++ [record],
                household_queue := s.household_queue.eraseP (fun h2 => h2.id == household_id) })

/-- The aggregation step of `get_analytics_data`:
`item_counts[name] = item_counts.get(name, 0) + quantity` on an
insertion-ordered dict, modelled as an association list. -/
def aggUpdate (acc : List (String × Int)) (nm : String) (q : Int) : List (String × Int) :=
  if acc.any (fun p => p.1 == nm) then
    acc.map (fun p => if p.1 == nm then (p.1, p.2 + q) else p)
  else
    acc ++ [(nm, q)]

/-- The aggregation pass of `get_analytics_data` over the distributions log
(exact-string item names). -/
def aggregateCounts (logs : List DistributionRecord) : List (String × Int) :=
  logs.foldl (fun acc record =>
    record.items.foldl (fun acc2 it => aggUpdate acc2 it.name it.quantity) acc) []

/-- `PantryManager.get_analytics_data`: aggregate quantities by exact item
name, then `sorted(..., key=lambda x: x[1], reverse=True)` — a stable
descending sort by total. -/
def get_analytics_data (s : PantryState) : List (String × Int) :=
  (aggregateCounts s.distributions_log).mergeSort (fun a b => decide (b.2 ≤ a.2))

/-- One engine operation together with its inputs (the `today` argument models
`date.today()`). -/
inductive Op where
  | addFood (donor : String) (data : List SubmittedItem) (today : String)
  | addMoney (donor : String) (amount : Int) (today : String)
  | signIn (name : String) (size : Int)
  | removeHousehold (hid : Int)
  | recordDist (hid : Int) (items : List DistItem) (today : String)
deriving DecidableEq, Repr

/-- The state after running one operation (discarding the returned value /
exception, keeping the state exactly as the Python object is left). -/
def step (s : PantryState) : Op → PantryState
  | .addFood donor data today => (add_food_donation s donor data today).2
  | .addMoney donor amount today => (add_money_donation s donor amount today).2
  | .signIn name size => (sign_in_household s name size).2
  | .removeHousehold hid => (remove_household_from_queue s hid).2
  | .recordDist hid items today => (record_distribution s hid items today).2

/-- Run a sequence of operations. -/
def run (s : PantryState) (ops : List Op) : PantryState :=
  ops.foldl step s

/-! ### Basic heap lemmas -/

theorem getObj_set_ne (store : List InventoryItem) (e r : Ref) (v : InventoryItem)
    (h : r ≠ e) : getObj (store.set e v) r = getObj store r := by
  simp [getObj, List.getD_eq_getElem?_getD, List.getElem?_set_ne (fun he => h he.symm)]

/-- Overwriting only the quantity of a heap object changes no object's name or
expiration date. -/
theorem getObj_setQuantity (store : List InventoryItem) (e : Ref) (q : Int) (r : Ref) :
    (getObj (store.set e { getObj store e with quantity := q }) r).name
        = (getObj store r).name ∧
      (getObj (store.set e { getObj store e with quantity := q }) r).expiration_date
        = (getObj store r).expiration_date := by
  by_cases h : r = e
  · subst h
    rcases heq : store[r]? with _ | o
    · have hlen : store.length ≤ r := by
        by_contra hlt
        rw [List.getElem?_eq_getElem (Nat.lt_of_not_le hlt)] at heq
        exact absurd heq (by simp)
      simp [getObj, List.set_eq_of_length_le hlen, List.getD_eq_getElem?_getD, heq]
    · simp [getObj, List.getD_eq_getElem?_getD, List.getElem?_set_self', heq]
  · rw [getObj_set_ne store e r _ h]
    exact ⟨rfl, rfl⟩

/-- Every heap object has non-negative quantity. -/
def AllNonneg (store : List InventoryItem) : Prop :=
  ∀ o ∈ store, 0 ≤ o.quantity

theorem getObj_nonneg {store : List InventoryItem} (h : AllNonneg store) (r : Ref) :
    0 ≤ (getObj store r).quantity := by
  rcases heq : store[r]? with _ | o
  · simp [getObj, List.getD_eq_getElem?_getD, heq]
    rfl
  · have : o ∈ store := List.getElem?_mem heq
    have := h o this
    simpa [getObj, List.getD_eq_getElem?_getD, heq] using this

theorem AllNonneg.set {store : List InventoryItem} (h : AllNonneg store)
    {v : InventoryItem} (hv : 0 ≤ v.quantity) (e : Ref) : AllNonneg (store.set e v) :=
  fun o ho => (List.mem_or_eq_of_mem_set ho).elim (h o) (fun he => he ▸ hv)

theorem AllNonneg.append {s1 s2 : List InventoryItem} (h1 : AllNonneg s1)
    (h2 : AllNonneg s2) : AllNonneg (s1 ++ s2) := by
  intro o ho
  rcases List.mem_append.mp ho with h | h
  · exact h1 o h
  · exact h2 o h

/-! ### Non-negativity of inventory quantities (C2) -/

theorem distLoop_allNonneg (inv : List Ref) (items : List DistItem) :
    ∀ (store : List InventoryItem), AllNonneg store → AllNonneg (distLoop inv store items).2 := by
  induction items with
  | nil => intro store h; exact h
  | cons it rest ih =>
    intro store h
    unfold distLoop
    cases hfind : inv.find? (fun r => strLower (getObj store r).name == strLower it.name) with
    | none => exact h
    | some r =>
      simp only
      split
      · exact h
      · next hq =>
        apply ih
        apply h.set _ r
        have h1 : ¬ (getObj store r).quantity < it.quantity := by simpa using hq
        simp only
        omega

theorem mergeLoop_allNonneg (todo : List Ref) :
    ∀ (store : List InventoryItem) (inv : List Ref), AllNonneg store →
      AllNonneg (mergeLoop store inv todo).1 := by
  induction todo with
  | nil => intro store inv h; exact h
  | cons r rest ih =>
    intro store inv h
    unfold mergeLoop
    cases hfind : inv.find? (fun e => mergeKeyMatch (getObj store e) (getObj store r)) with
    | none => exact ih _ _ h
    | some e =>
      simp only
      apply ih
      apply h.set _ e
      have h1 := getObj_nonneg h e
      have h2 := getObj_nonneg h r
      simp only
      omega

/-- The quantities submitted with an operation are non-negative (for the two
operations that take item quantities). -/
def OpNonneg : Op → Prop
  | .addFood _ data _ => ∀ d ∈ data, 0 ≤ d.quantity
  | .recordDist _ items _ => ∀ it ∈ items, 0 ≤ it.quantity
  | _ => True

theorem remove_household_store_eq (s : PantryState) (hid : Int) :
    (remove_household_from_queue s hid).2.store = s.store := by
  unfold remove_household_from_queue
  split <;> rfl

theorem step_allNonneg {s : PantryState} {op : Op} (h : AllNonneg s.store)
    (hop : OpNonneg op) : AllNonneg (step s op).store := by
  cases op with
  | addFood donor data today =>
    show AllNonneg (add_food_donation s donor data today).2.store
    apply mergeLoop_allNonneg
    apply h.append
    intro o ho
    rcases List.mem_map.mp ho with ⟨d, hd, rfl⟩
    exact hop d hd
  | addMoney donor amount today => exact h
  | signIn name size => exact h
  | removeHousehold hid =>
    show AllNonneg (remove_household_from_queue s hid).2.store
    rw [remove_household_store_eq]
    exact h
  | recordDist hid items today =>
    show AllNonneg (record_distribution s hid items today).2.store
    unfold record_distribution
    cases hfind : s.household_queue.find? (fun h2 => h2.id == hid) with
    | none => exact h
    | some hh =>
      simp only
      have hd := distLoop_allNonneg s.inventory items s.store h
      rcases hdl : distLoop s.inventory s.store items with ⟨oe, st2⟩
      rw [hdl] at hd
      cases oe with
      | none => exact hd
      | some e => exact hd

theorem run_allNonneg {s : PantryState} {ops : List Op} (h : AllNonneg s.store)
    (hops : ∀ op ∈ ops, OpNonneg op) : AllNonneg (run s ops).store := by
  induction ops generalizing s with
  | nil => exact h
  | cons op rest ih =>
    exact ih (step_allNonneg h (hops op (by simp))) (fun o ho => hops o (by simp [ho]))

/-- C2: starting from a state in which every `InventoryItem` object has
quantity ≥ 0 (in particular every inventory line), after any sequence of
engine operations whose submitted item quantities are non-negative, every
inventory line still has quantity ≥ 0: `record_distribution` only decrements a
line after checking its stock is at least the requested amount, and
`add_food_donation` only adds non-negative amounts. -/
theorem C2_inventory_nonneg (s : PantryState) (ops : List Op)
    (h0 : AllNonneg s.store) (hops : ∀ op ∈ ops, OpNonneg op) :
    ∀ r ∈ (run s ops).inventory, 0 ≤ (getObj (run s ops).store r).quantity := by
  intro r _
  exact getObj_nonneg (run_allNonneg h0 hops) r

/-- Witness for C2 at a concrete input: donate 2 Rice, distribute 1. -/
theorem C2_witness :
    0 ≤ (getObj (run emptyState [Op.addFood "A" [⟨"Rice", 2, "d"⟩] "t",
        Op.signIn "Smith" 3, Op.recordDist 1 [⟨"rice", 1⟩] "t"]).store 0).quantity :=
  C2_inventory_nonneg emptyState
    [Op.addFood "A" [⟨"Rice", 2, "d"⟩] "t", Op.signIn "Smith" 3,
      Op.recordDist 1 [⟨"rice", 1⟩] "t"]
    (by intro o ho; simp [emptyState] at ho)
    (by
      intro op hop
      simp only [List.mem_cons, List.not_mem_nil, or_false] at hop
      rcases hop with rfl | rfl | rfl
      · intro d hd
        simp only [List.mem_cons, List.not_mem_nil, or_false] at hd
        subst hd
        decide
      · trivial
      · intro it hit
        simp only [List.mem_cons, List.not_mem_nil, or_false] at hit
        subst hit
        decide)
    0 (by decide)

/-! ### Exceptions raised by the engine (C1, C10) -/

instance instDecEqExceptPy {ε α : Type} [DecidableEq ε] [DecidableEq α] :
    DecidableEq (Except ε α) := fun a b =>
  match a, b with
  | .error x, .error y =>
    if h : x = y then isTrue (by subst h; rfl)
    else isFalse (fun hh => by injection hh; exact h (by assumption))
  | .error _, .ok _ => isFalse (fun hh => by injection hh)
  | .ok _, .error _ => isFalse (fun hh => by injection hh)
  | .ok x, .ok y =>
    if h : x = y then isTrue (by subst h; rfl)
    else isFalse (fun hh => by injection hh; exact h (by assumption))

/-- A state with one inventory line, Beans with stock 3, and household 1
("Smith", size 4) in the queue. -/
def beansState : PantryState :=
  { store := [⟨"Beans", 3, "2026-01-01"⟩], inventory := [0], donations_log := [],
    distributions_log := [], household_queue := [⟨1, "Smith", 4⟩], next_household_id := 2 }

/-- A state with one inventory line, Rice with stock 5, and household 1
("Smith", size 4) in the queue. -/
def riceState : PantryState :=
  { store := [⟨"Rice", 5, "2025-12-01"⟩], inventory := [0], donations_log := [],
    distributions_log := [], household_queue := [⟨1, "Smith", 4⟩], next_household_id := 2 }

theorem distLoop_error_cls (inv : List Ref) (items : List DistItem) :
    ∀ (store : List InventoryItem) (e : PyExc),
      (distLoop inv store items).1 = some e → e.cls = "ValueError" := by
  induction items with
  | nil =>
    intro store e h
    simp [distLoop] at h
  | cons it rest ih =>
    intro store e h
    unfold distLoop at h
    cases hfind : inv.find? (fun r => strLower (getObj store r).name == strLower it.name) with
    | none =>
      rw [hfind] at h
      simp at h
      rw [← h]
    | some r =>
      rw [hfind] at h
      simp only at h
      split at h
      · simp at h
        rw [← h]
      · exact ih _ e h

theorem record_distribution_error_cls (s : PantryState) (hid : Int) (items : List DistItem)
    (today : String) (e : PyExc) :
    (record_distribution s hid items today).1 = Except.error e → e.cls = "ValueError" := by
  unfold record_distribution
  cases hfind : s.household_queue.find? (fun h => h.id == hid) with
  | none =>
    intro h
    simp at h
    rw [← h]
  | some hh =>
    simp only
    rcases hdl : distLoop s.inventory s.store items with ⟨oe, st2⟩
    cases oe with
    | some e2 =>
      intro h
      simp at h
      rw [← h]
      exact distLoop_error_cls s.inventory items s.store e2 (by rw [hdl])
    | none =>
      intro h
      simp at h

theorem remove_household_error_cls (s : PantryState) (hid : Int) (e : PyExc) :
    (remove_household_from_queue s hid).1 = Except.error e → e.cls = "ValueError" := by
  unfold remove_household_from_queue
  cases hfind : s.household_queue.find? (fun h => h.id == hid) with
  | none =>
    intro h
    simp at h
    rw [← h]
  | some hh =>
    intro h
    simp at h

/-- C10: when `record_distribution` (or `remove_household_from_queue`) raises,
the raised value is always a `ValueError` carrying a message — there is no
distinct `NotFoundError` or `InsufficientStockError` class — and the three
failure causes of `record_distribution` are distinguishable only by their
message text. -/
theorem C10_failures_are_valueerror (s : PantryState) (hid : Int) (items : List DistItem)
    (today : String) :
    (∀ e : PyExc, (record_distribution s hid items today).1 = Except.error e →
      e.cls = "ValueError")
    ∧ (∀ e : PyExc, (remove_household_from_queue s hid).1 = Except.error e →
      e.cls = "ValueError")
    ∧ (record_distribution beansState 2 [] "d").1
        = Except.error ⟨"ValueError", "Household with ID 2 not found in queue."⟩
    ∧ (record_distribution beansState 1 [⟨"Rice", 1⟩] "d").1
        = Except.error ⟨"ValueError", "Item Rice not found in inventory."⟩
    ∧ (record_distribution beansState 1 [⟨"Beans", 5⟩] "d").1
        = Except.error ⟨"ValueError", "Insufficient stock for Beans."⟩ :=
  ⟨fun e => record_distribution_error_cls s hid items today e,
   fun e => remove_household_error_cls s hid e,
   by decide, by decide, by decide⟩

/-- Witness for C10 at a concrete input: the insufficient-stock failure is a
`ValueError`. -/
theorem C10_witness :
    (⟨"ValueError", "Insufficient stock for Beans."⟩ : PyExc).cls = "ValueError" :=
  (C10_failures_are_valueerror beansState 1 [⟨"Beans", 5⟩] "d").1 _
    (C10_failures_are_valueerror beansState 1 [⟨"Beans", 5⟩] "d").2.2.2.2

/-! ### Atomicity of record_distribution (C1) -/

/-- C1: the claimed atomicity fails.  With Rice (stock 5) as the only
inventory line and household 1 in the queue, requesting [Rice 3, Beans 1]
raises (Beans is absent) — yet the Rice line has already been decremented from
5 to 2, because `record_distribution` decrements inside its validation loop.
The queue and the distributions log are unchanged, but the inventory is not
"exactly as before the call".  This contradicts the code's own comment
("Before we change any data, we first check if all requested items are in
stock"), so the code, not the claim, is wrong. -/
theorem C1_failed_distribution_mutates_inventory :
    (record_distribution riceState 1 [⟨"Rice", 3⟩, ⟨"Beans", 1⟩] "2025-01-02").1
      = Except.error ⟨"ValueError", "Item Beans not found in inventory."⟩
    ∧ (getObj riceState.store 0).quantity = 5
    ∧ (getObj (record_distribution riceState 1 [⟨"Rice", 3⟩, ⟨"Beans", 1⟩] "2025-01-02").2.store
        0).quantity = 2
    ∧ (record_distribution riceState 1 [⟨"Rice", 3⟩, ⟨"Beans", 1⟩] "2025-01-02").2.household_queue
      = riceState.household_queue
    ∧ (record_distribution riceState 1 [⟨"Rice", 3⟩, ⟨"Beans", 1⟩] "2025-01-02").2.distributions_log
      = riceState.distributions_log := by
  decide

/-! ### Money donations (C4) -/

/-- C4 counterexample: `add_money_donation` with the non-positive amount -5
does not fail with a `ValidationError`; it appends a `"Money"` donation with
details -5 to the (previously empty) donations log. -/
theorem C4_counterexample_negative_amount_accepted :
    emptyState.donations_log = []
    ∧ (add_money_donation emptyState "Bob" (-5) "2025-01-02").2.donations_log
        = [⟨"Bob", "Money", DonationDetails.money (-5), "2025-01-02"⟩] := by
  decide

/-- C4 amended: `add_money_donation` performs no validation at all.  For every
amount — positive or not — it appends exactly one Donation of type `"Money"`
whose details equal the amount, never fails, and touches nothing else. -/
theorem C4_amended_money_donation_appends (s : PantryState) (donor : String) (amount : Int)
    (today : String) :
    (add_money_donation s donor amount today).1.type = "Money"
    ∧ (add_money_donation s donor amount today).1.details = DonationDetails.money amount
    ∧ (add_money_donation s donor amount today).1.donor = donor
    ∧ (add_money_donation s donor amount today).1.date = today
    ∧ (add_money_donation s donor amount today).2.donations_log
        = s.donations_log ++ [(add_money_donation s donor amount today).1]
    ∧ (add_money_donation s donor amount today).2.store = s.store
    ∧ (add_money_donation s donor amount today).2.inventory = s.inventory
    ∧ (add_money_donation s donor amount today).2.distributions_log = s.distributions_log
    ∧ (add_money_donation s donor amount today).2.household_queue = s.household_queue
    ∧ (add_money_donation s donor amount today).2.next_household_id = s.next_household_id :=
  ⟨rfl, rfl, rfl, rfl, rfl, rfl, rfl, rfl, rfl, rfl⟩

/-! ### Donation immutability (C6) -/

/-- C6: donation log entries are *not* immutable.  Donating 10 Rice creates a
`"Food"` donation whose detail item (heap object 0) reads quantity 10.  The
same object is the inventory line, so a later `record_distribution` of 4 Rice
silently changes the logged donation's detail quantity from 10 to 6, with no
donation operation in between.  The log entry itself still points at object 0,
whose quantity is now 6: the recorded history has changed.  This contradicts
the documented intent that a donation is a record of the donation event, so
the code, not the claim, is wrong. -/
theorem C6_donation_details_mutated_by_later_distribution :
    (run emptyState [Op.addFood "Alice" [⟨"Rice", 10, "2025-12-01"⟩] "d1"]).donations_log
      = [⟨"Alice", "Food", DonationDetails.food [0], "d1"⟩]
    ∧ (getObj (run emptyState [Op.addFood "Alice" [⟨"Rice", 10, "2025-12-01"⟩] "d1"]).store
        0).quantity = 10
    ∧ (run emptyState [Op.addFood "Alice" [⟨"Rice", 10, "2025-12-01"⟩] "d1",
        Op.signIn "Smith" 4, Op.recordDist 1 [⟨"Rice", 4⟩] "d2"]).donations_log
      = [⟨"Alice", "Food", DonationDetails.food [0], "d1"⟩]
    ∧ (getObj (run emptyState [Op.addFood "Alice" [⟨"Rice", 10, "2025-12-01"⟩] "d1",
        Op.signIn "Smith" 4, Op.recordDist 1 [⟨"Rice", 4⟩] "d2"]).store 0).quantity = 6 := by
  decide

/-! ### Removing a household (C7) -/

/-- A state whose queue holds households 1 ("A", size 2) and 2 ("B", size 3). -/
def queueState : PantryState :=
  { store := [], inventory := [], donations_log := [], distributions_log := [],
    household_queue := [⟨1, "A", 2⟩, ⟨2, "B", 3⟩], next_household_id := 3 }

/-- C7: `remove_household_from_queue` fails exactly when no queue entry has
the given id; it never touches the inventory or the two logs; on failure the
queue is unchanged; and (queue ids being pairwise distinct, as the engine
maintains) the successful case removes exactly the household with that id,
keeping everything else in order. -/
theorem C7_remove_household (s : PantryState) (hid : Int)
    (hdist : s.household_queue.Pairwise (fun a b => a.id ≠ b.id)) :
    ((∃ e, (remove_household_from_queue s hid).1 = Except.error e)
        ↔ ∀ h ∈ s.household_queue, h.id ≠ hid)
    ∧ (remove_household_from_queue s hid).2.store = s.store
    ∧ (remove_household_from_queue s hid).2.inventory = s.inventory
    ∧ (remove_household_from_queue s hid).2.donations_log = s.donations_log
    ∧ (remove_household_from_queue s hid).2.distributions_log = s.distributions_log
    ∧ (remove_household_from_queue s hid).2.next_household_id = s.next_household_id
    ∧ List.Sublist (remove_household_from_queue s hid).2.household_queue s.household_queue
    ∧ ((∀ h ∈ s.household_queue, h.id ≠ hid) →
        (remove_household_from_queue s hid).2.household_queue = s.household_queue)
    ∧ (∀ h2 : Household, h2 ∈ (remove_household_from_queue s hid).2.household_queue
        ↔ h2 ∈ s.household_queue ∧ h2.id ≠ hid) := by
  unfold remove_household_from_queue
  cases hfind : s.household_queue.find? (fun h => h.id == hid) with
  | none =>
    have hnone : ∀ h ∈ s.household_queue, h.id ≠ hid := by
      intro h hm
      have := List.find?_eq_none.mp hfind h hm
      simpa using this
    refine ⟨⟨fun _ => hnone, fun _ => ⟨_, rfl⟩⟩, rfl, rfl, rfl, rfl, rfl,
      List.Sublist.refl _, fun _ => rfl, ?_⟩
    intro h2
    exact ⟨fun hm => ⟨hm, hnone h2 hm⟩, fun hm => hm.1⟩
  | some hh =>
    have hmemh : hh ∈ s.household_queue := List.mem_of_find?_eq_some hfind
    have hidh : hh.id = hid := by
      have := List.find?_some hfind
      simpa using this
    obtain ⟨a, l1, l2, hnot1, hpa, hsplit, herase⟩ :=
      @List.exists_of_eraseP Household (fun h => h.id == hid) s.household_queue hh hmemh
        (by simpa using hidh)
    have hida : a.id = hid := by simpa using hpa
    have hl2 : ∀ b ∈ l2, b.id ≠ hid := by
      rw [hsplit] at hdist
      have := (List.pairwise_append.mp hdist).2.1
      have ha2 := (List.pairwise_cons.mp this).1
      intro b hb
      have := ha2 b hb
      omega
    have hl1 : ∀ b ∈ l1, b.id ≠ hid := by
      intro b hb
      have := hnot1 b hb
      simpa using this
    refine ⟨⟨?_, ?_⟩, rfl, rfl, rfl, rfl, rfl, ?_, ?_, ?_⟩
    · rintro ⟨e, he⟩
      simp at he
    · intro hall
      exact absurd hidh (hall hh hmemh)
    · show List.Sublist (s.household_queue.eraseP (fun h => h.id == hid)) s.household_queue
      exact List.eraseP_sublist _
    · intro hall
      exact absurd hidh (hall hh hmemh)
    · intro h2
      show h2 ∈ s.household_queue.eraseP (fun h => h.id == hid) ↔ _
      rw [herase, hsplit]
      constructor
      · intro hm
        rcases List.mem_append.mp hm with hm | hm
        · exact ⟨List.mem_append.mpr (Or.inl hm), hl1 h2 hm⟩
        · exact ⟨by simp [hm], hl2 h2 hm⟩
      · rintro ⟨hm, hne⟩
        rcases List.mem_append.mp hm with hm | hm
        · exact List.mem_append.mpr (Or.inl hm)
        · rcases List.mem_cons.mp hm with rfl | hm
          · exact absurd hida hne
          · exact List.mem_append.mpr (Or.inr hm)

/-- Witness for C7 at a concrete input: removing household 1 from the queue
[1 "A", 2 "B"] keeps household 2 and drops household 1. -/
theorem C7_witness :
    (⟨2, "B", 3⟩ : Household) ∈ (remove_household_from_queue queueState 1).2.household_queue
    ∧ (⟨1, "A", 2⟩ : Household) ∉ (remove_household_from_queue queueState 1).2.household_queue := by
  have h := C7_remove_household queueState 1 (by decide)
  constructor
  · exact (h.2.2.2.2.2.2.2.2 ⟨2, "B", 3⟩).mpr ⟨by decide, by decide⟩
  · intro hmem
    have := (h.2.2.2.2.2.2.2.2 ⟨1, "A", 2⟩).mp hmem
    exact absurd rfl this.2

/-! ### Household sign-in and queue ids (C9) -/

/-- Queue id well-formedness: every queued id is below the counter, and queued
ids are pairwise distinct. -/
def QueueIdsOk (s : PantryState) : Prop :=
  (∀ h ∈ s.household_queue, h.id < s.next_household_id)
  ∧ s.household_queue.Pairwise (fun a b => a.id ≠ b.id)

theorem remove_household_queue_shrinks (s : PantryState) (hid : Int) :
    List.Sublist (remove_household_from_queue s hid).2.household_queue s.household_queue
    ∧ (remove_household_from_queue s hid).2.next_household_id = s.next_household_id := by
  unfold remove_household_from_queue
  split
  · exact ⟨List.eraseP_sublist _, rfl⟩
  · exact ⟨List.Sublist.refl _, rfl⟩

theorem record_distribution_queue_shrinks (s : PantryState) (hid : Int)
    (items : List DistItem) (today : String) :
    List.Sublist (record_distribution s hid items today).2.household_queue s.household_queue
    ∧ (record_distribution s hid items today).2.next_household_id = s.next_household_id := by
  unfold record_distribution
  cases hfind : s.household_queue.find? (fun h => h.id == hid) with
  | none => exact ⟨List.Sublist.refl _, rfl⟩
  | some hh =>
    simp only
    rcases hdl : distLoop s.inventory s.store items with ⟨oe, st2⟩
    cases oe with
    | some e => exact ⟨List.Sublist.refl _, rfl⟩
    | none => exact ⟨List.eraseP_sublist _, rfl⟩

theorem step_queueIdsOk {s : PantryState} {op : Op} (h : QueueIdsOk s) :
    QueueIdsOk (step s op) := by
  obtain ⟨hlt, hdist⟩ := h
  cases op with
  | addFood donor data today => exact ⟨hlt, hdist⟩
  | addMoney donor amount today => exact ⟨hlt, hdist⟩
  | signIn name size =>
    constructor
    · intro h2 hm
      rcases List.mem_append.mp hm with hm | hm
      · have := hlt h2 hm
        show h2.id < s.next_household_id + 1
        omega
      · simp at hm
        subst hm
        show s.next_household_id < s.next_household_id + 1
        omega
    · apply List.pairwise_append.mpr
      refine ⟨hdist, List.pairwise_singleton _ _, ?_⟩
      intro a ha b hb
      simp at hb
      subst hb
      have := hlt a ha
      show a.id ≠ s.next_household_id
      omega
  | removeHousehold hid =>
    obtain ⟨hsub, hcount⟩ := remove_household_queue_shrinks s hid
    exact ⟨fun h2 hm => hcount ▸ hlt h2 (hsub.mem hm), hdist.sublist hsub⟩
  | recordDist hid items today =>
    obtain ⟨hsub, hcount⟩ := record_distribution_queue_shrinks s hid items today
    exact ⟨fun h2 hm => hcount ▸ hlt h2 (hsub.mem hm), hdist.sublist hsub⟩

theorem run_queueIdsOk {s : PantryState} {ops : List Op} (h : QueueIdsOk s) :
    QueueIdsOk (run s ops) := by
  induction ops generalizing s with
  | nil => exact h
  | cons op rest ih => exact ih (step_queueIdsOk h)

/-- C9 counterexample: `sign_in_household` with the invalid size 0 does not
fail with a `ValidationError` — it succeeds and appends a household of size 0
to the (previously empty) queue. -/
theorem C9_counterexample_size_zero_accepted :
    (sign_in_household emptyState "X" 0).2.household_queue = [⟨1, "X", 0⟩]
    ∧ emptyState.household_queue = [] := by
  decide

/-- C9 amended: every `sign_in_household` call assigns `id = nextHouseholdId`
(which starts at 1), appends the household, and increments the counter, so ids
are monotonically increasing and all queue ids stay pairwise distinct under
any sequence of operations; but the call performs no size validation at all —
it never fails, accepting any integer size (0 and negative included). -/
theorem C9_amended_ids_monotone_no_validation (s : PantryState) (ops : List Op)
    (hok : QueueIdsOk s) :
    QueueIdsOk (run s ops)
    ∧ (∀ name size, (sign_in_household s name size).1.id = s.next_household_id
        ∧ (sign_in_household s name size).1.size = size
        ∧ (sign_in_household s name size).2.next_household_id = s.next_household_id + 1
        ∧ (sign_in_household s name size).2.household_queue
            = s.household_queue ++ [(sign_in_household s name size).1])
    ∧ emptyState.next_household_id = 1 :=
  ⟨run_queueIdsOk hok, fun _ _ => ⟨rfl, rfl, rfl, rfl⟩, rfl⟩

/-- Witness for C9 at a concrete input: after two sign-ins from the fresh
state the queue ids are in range and pairwise distinct. -/
theorem C9_witness :
    QueueIdsOk (run emptyState [Op.signIn "A" 2, Op.signIn "B" 5]) :=
  (C9_amended_ids_monotone_no_validation emptyState [Op.signIn "A" 2, Op.signIn "B" 5]
    ⟨fun h hm => absurd hm (by simp [emptyState]), List.Pairwise.nil⟩).1

/-! ### Uniqueness of inventory merge keys (C3) -/

/-- The merge identity key of an inventory line: (name lower-cased,
expiration date). -/
def invKey (o : InventoryItem) : String × String :=
  (strLower o.name, o.expiration_date)

theorem mergeKeyMatch_iff (a b : InventoryItem) :
    mergeKeyMatch a b = true ↔ invKey a = invKey b := by
  simp [mergeKeyMatch, invKey, Prod.ext_iff]

theorem invKey_setQuantity (store : List InventoryItem) (e : Ref) (q : Int) (r : Ref) :
    invKey (getObj (store.set e { getObj store e with quantity := q }) r)
      = invKey (getObj store r) := by
  obtain ⟨h1, h2⟩ := getObj_setQuantity store e q r
  simp [invKey, h1, h2]

theorem getObj_append_lt (store ext : List InventoryItem) (r : Ref) (h : r < store.length) :
    getObj (store ++ ext) r = getObj store r := by
  simp [getObj, List.getD_eq_getElem?_getD, List.getElem?_append_left h]

/-- No two inventory lines share a merge key. -/
def KeysDistinct (store : List InventoryItem) (inv : List Ref) : Prop :=
  inv.Pairwise (fun r1 r2 => invKey (getObj store r1) ≠ invKey (getObj store r2))

/-- All inventory refs point into the store. -/
def RefsBound (store : List InventoryItem) (inv : List Ref) : Prop :=
  ∀ r ∈ inv, r < store.length

theorem mergeLoop_keysDistinct :
    ∀ (todo : List Ref) (store : List InventoryItem) (inv : List Ref),
      KeysDistinct store inv →
      KeysDistinct (mergeLoop store inv todo).1 (mergeLoop store inv todo).2 := by
  intro todo
  induction todo with
  | nil => intro store inv h; exact h
  | cons r rest ih =>
    intro store inv h
    unfold mergeLoop
    cases hfind : inv.find? (fun e => mergeKeyMatch (getObj store e) (getObj store r)) with
    | some e =>
      simp only
      apply ih
      refine List.Pairwise.imp ?_ h
      intro a b hab
      rw [invKey_setQuantity, invKey_setQuantity]
      exact hab
    | none =>
      simp only
      apply ih
      apply List.pairwise_append.mpr
      refine ⟨h, List.pairwise_singleton _ _, ?_⟩
      intro a ha b hb
      simp only [List.mem_singleton] at hb
      subst hb
      have hne := List.find?_eq_none.mp hfind a ha
      intro hkey
      exact hne ((mergeKeyMatch_iff _ _).mpr hkey)

/-- C3: if no two inventory lines share the same (name lower-cased,
expiration date) key — with all inventory refs valid — then after any
`add_food_donation` call, duplicate keys in the submitted list included, the
inventory again has at most one line per key: a submitted item matching an
existing line increments that line, otherwise the item is appended and
becomes the line all later duplicates merge into. -/
theorem C3_inventory_keys_unique (s : PantryState) (donor : String)
    (data : List SubmittedItem) (today : String)
    (hb : RefsBound s.store s.inventory)
    (hk : KeysDistinct s.store s.inventory) :
    KeysDistinct (add_food_donation s donor data today).2.store
      (add_food_donation s donor data today).2.inventory := by
  apply mergeLoop_keysDistinct
  refine List.Pairwise.imp_of_mem ?_ hk
  intro a b ha hb2 hab
  rw [getObj_append_lt _ _ _ (hb a ha), getObj_append_lt _ _ _ (hb b hb2)]
  exact hab

/-- Witness for C3 at a concrete input: donating Rice (merging into the
existing line) together with Beans (a new line) keeps inventory keys
distinct. -/
theorem C3_witness :
    KeysDistinct
      (add_food_donation riceState "A"
        [⟨"rice", 2, "2025-12-01"⟩, ⟨"Beans", 1, "2026-01-01"⟩] "t").2.store
      (add_food_donation riceState "A"
        [⟨"rice", 2, "2025-12-01"⟩, ⟨"Beans", 1, "2026-01-01"⟩] "t").2.inventory :=
  C3_inventory_keys_unique riceState "A"
    [⟨"rice", 2, "2025-12-01"⟩, ⟨"Beans", 1, "2026-01-01"⟩] "t"
    (by intro r hr; simp [riceState] at hr; simp [hr, riceState])
    (by simp [KeysDistinct, riceState])

/-! ### Donation details vs. submitted items (C5) -/

/-- The `InventoryItem` objects a donation's details refer to, as read in a
given heap. -/
def detailObjects (store : List InventoryItem) : DonationDetails → List InventoryItem
  | .food refs => refs.map (getObj store)
  | .money _ => []

theorem getObj_append_at (store ext : List InventoryItem) (i : Nat) (h : i < ext.length) :
    getObj (store ++ ext) (store.length + i) = ext[i] := by
  have h1 : store.length ≤ store.length + i := Nat.le_add_right _ _
  simp [getObj, List.getD_eq_getElem?_getD, List.getElem?_append_right h1,
    List.getElem?_eq_getElem h]

/-- If the refs still to be merged have pairwise-distinct keys among a
protected set `P` disjoint (key-wise) from the inventory, the merge loop never
mutates an object in `P`: merge targets are always inventory lines outside
`P`. -/
theorem mergeLoop_no_mutate :
    ∀ (todo : List Ref) (store : List InventoryItem) (inv P : List Ref),
      todo.Nodup →
      (∀ r ∈ todo, r ∈ P) →
      (∀ p2 ∈ P, ∀ x ∈ todo,
        invKey (getObj store p2) = invKey (getObj store x) → p2 = x) →
      (∀ p2 ∈ P, p2 ∈ inv → ∀ x ∈ todo,
        invKey (getObj store p2) ≠ invKey (getObj store x)) →
      ∀ p2 ∈ P, getObj (mergeLoop store inv todo).1 p2 = getObj store p2 := by
  intro todo
  induction todo with
  | nil => intro store inv P _ _ _ _ p2 _; rfl
  | cons r rest ih =>
    intro store inv P hnodup htodoP hPkeys hPinv p2 hp2
    unfold mergeLoop
    cases hfind : inv.find? (fun e => mergeKeyMatch (getObj store e) (getObj store r)) with
    | some e =>
      simp only
      have hmem : e ∈ inv := List.mem_of_find?_eq_some hfind
      have hkey : invKey (getObj store e) = invKey (getObj store r) := by
        have := List.find?_some hfind
        exact (mergeKeyMatch_iff _ _).mp this
      have heP : e ∉ P := fun heP =>
        hPinv e heP hmem r (List.mem_cons_self r rest) hkey
      have hkeys2 : ∀ y : Ref,
          invKey (getObj (store.set e { getObj store e with
            quantity := (getObj store e).quantity + (getObj store r).quantity }) y)
          = invKey (getObj store y) :=
        fun y => invKey_setQuantity store e _ y
      have hobj2 : ∀ y ∈ P, getObj (store.set e { getObj store e with
            quantity := (getObj store e).quantity + (getObj store r).quantity }) y
          = getObj store y := by
        intro y hy
        apply getObj_set_ne
        intro hye
        exact heP (hye ▸ hy)
      rw [show getObj store p2 = getObj (store.set e { getObj store e with
            quantity := (getObj store e).quantity + (getObj store r).quantity }) p2
          from (hobj2 p2 hp2).symm]
      apply ih _ inv P (List.Nodup.of_cons hnodup)
        (fun x hx => htodoP x (List.mem_cons_of_mem r hx))
        (fun y hy x hx hxy => hPkeys y hy x (List.mem_cons_of_mem r hx)
          (by rw [← hkeys2 y, ← hkeys2 x]; exact hxy))
        (fun y hy hyi x hx => by
          rw [hkeys2 y, hkeys2 x]
          exact hPinv y hy hyi x (List.mem_cons_of_mem r hx))
        p2 hp2
    | none =>
      simp only
      apply ih store (inv ++ [r]) P (List.Nodup.of_cons hnodup)
        (fun x hx => htodoP x (List.mem_cons_of_mem r hx))
        (fun y hy x hx hxy => hPkeys y hy x (List.mem_cons_of_mem r hx) hxy)
        (fun y hy hyi x hx => by
          rcases List.mem_append.mp hyi with hyi2 | hyi2
          · exact hPinv y hy hyi2 x (List.mem_cons_of_mem r hx)
          · simp only [List.mem_singleton] at hyi2
            intro hk
            rw [hyi2] at hk
            have hyx := hPkeys r (hyi2 ▸ hy) x (List.mem_cons_of_mem r hx) hk
            rw [← hyx] at hx
            exact (List.nodup_cons.mp hnodup).1 hx)
        p2 hp2

/-- C5 counterexample: submitting the same (name, expiration) key twice in one
donation inflates the first detail item.  From the empty store, donating
[Rice 2, Rice 3] (same date) produces a donation whose first detail object
reads quantity 5, not the submitted 2, because the second line merged into
the first (which is also the inventory line). -/
theorem C5_counterexample_duplicate_key_submission :
    (add_food_donation emptyState "A" [⟨"Rice", 2, "d"⟩, ⟨"Rice", 3, "d"⟩] "d1").1.details
      = DonationDetails.food [0, 1]
    ∧ detailObjects
        (add_food_donation emptyState "A" [⟨"Rice", 2, "d"⟩, ⟨"Rice", 3, "d"⟩] "d1").2.store
        (add_food_donation emptyState "A" [⟨"Rice", 2, "d"⟩, ⟨"Rice", 3, "d"⟩] "d1").1.details
      = [⟨"Rice", 5, "d"⟩, ⟨"Rice", 3, "d"⟩]
    ∧ ([⟨"Rice", 2, "d"⟩, ⟨"Rice", 3, "d"⟩] : List SubmittedItem).map toItem
      = [⟨"Rice", 2, "d"⟩, ⟨"Rice", 3, "d"⟩] := by
  decide

/-- C5 amended: for every `add_food_donation` call whose submitted items have
pairwise-distinct (name lower-cased, expiration date) keys (and whose starting
inventory refs are valid), the returned donation has type `"Food"`, its
details are exactly the submitted items (names, quantities and expiration
dates in order, as submitted, not the merged inventory lines), and exactly one
entry is appended to the donations log.  (When the submission repeats a key,
later duplicates merge into the detail object of the first, inflating its
recorded quantity — see the counterexample.) -/
theorem C5_amended_details_as_submitted (s : PantryState) (donor : String)
    (data : List SubmittedItem) (today : String)
    (hb : RefsBound s.store s.inventory)
    (hdk : data.Pairwise (fun a b => invKey (toItem a) ≠ invKey (toItem b))) :
    (add_food_donation s donor data today).1.type = "Food"
    ∧ (add_food_donation s donor data today).1.donor = donor
    ∧ (add_food_donation s donor data today).1.date = today
    ∧ detailObjects (add_food_donation s donor data today).2.store
        (add_food_donation s donor data today).1.details = data.map toItem
    ∧ (add_food_donation s donor data today).2.donations_log
        = s.donations_log ++ [(add_food_donation s donor data today).1] := by
  refine ⟨rfl, rfl, rfl, ?_, rfl⟩
  show (List.range' s.store.length (data.map toItem).length).map
      (getObj (mergeLoop (s.store ++ data.map toItem) s.inventory
        (List.range' s.store.length (data.map toItem).length)).1)
    = data.map toItem
  have hlen : (data.map toItem).length = data.length := List.length_map _ _
  have hgetInit : ∀ i (hi : i < data.length),
      getObj (s.store ++ data.map toItem) (s.store.length + i) = toItem data[i] := by
    intro i hi
    rw [getObj_append_at _ _ i (by omega)]
    simp
  have hmemref : ∀ rr ∈ List.range' s.store.length (data.map toItem).length,
      ∃ i, i < data.length ∧ rr = s.store.length + i := by
    intro rr hrr
    rw [List.mem_range'] at hrr
    obtain ⟨i, hi, hri⟩ := hrr
    exact ⟨i, by omega, by omega⟩
  have hkeyeq : ∀ i j (hi : i < data.length) (hj : j < data.length),
      invKey (toItem data[i]) = invKey (toItem data[j]) → i = j := by
    intro i j hi hj hk
    by_contra hne
    rcases Nat.lt_or_ge i j with hij | hij
    · exact (List.pairwise_iff_getElem.mp hdk i j hi hj hij) hk
    · have hji : j < i := by omega
      exact (List.pairwise_iff_getElem.mp hdk j i hj hi hji) hk.symm
  have hnomut : ∀ p2 ∈ List.range' s.store.length (data.map toItem).length,
      getObj (mergeLoop (s.store ++ data.map toItem) s.inventory
        (List.range' s.store.length (data.map toItem).length)).1 p2
      = getObj (s.store ++ data.map toItem) p2 := by
    apply mergeLoop_no_mutate _ _ _ _ (List.nodup_range' _ _) (fun r hr => hr)
    · intro p2 hp2 x hx hkey
      obtain ⟨i, hi, rfl⟩ := hmemref p2 hp2
      obtain ⟨j, hj, rfl⟩ := hmemref x hx
      rw [hgetInit i hi, hgetInit j hj] at hkey
      have hij := hkeyeq i j hi hj hkey
      rw [hij]
    · intro p2 hp2 hpi x hx
      obtain ⟨i, hi, rfl⟩ := hmemref p2 hp2
      have hcontra := hb _ hpi
      exact (Nat.not_lt.mpr (Nat.le_add_right s.store.length i) hcontra).elim
  have hmapped : ∀ i, (h : i < (List.range' s.store.length (data.map toItem).length).length) →
      (List.range' s.store.length (data.map toItem).length)[i] = s.store.length + i := by
    intro i h
    exact List.getElem_range'_1 i h
  apply List.ext_getElem
  · simp
  · intro i h1 h2
    rw [List.getElem_map, hmapped i (by simpa using h1),
      hnomut _ (by rw [List.mem_range']; exact ⟨i, by simp at h1; omega, by omega⟩)]
    rw [hgetInit i (by simp at h2; omega)]
    simp

/-- Witness for C5 at a concrete input: donating one item (which merges into
the existing Rice line) leaves the donation's details exactly as submitted. -/
theorem C5_witness :
    detailObjects (add_food_donation riceState "B" [⟨"rice", 2, "2025-12-01"⟩] "t").2.store
      (add_food_donation riceState "B" [⟨"rice", 2, "2025-12-01"⟩] "t").1.details
    = [⟨"rice", 2, "2025-12-01"⟩] := by
  have h := C5_amended_details_as_submitted riceState "B" [⟨"rice", 2, "2025-12-01"⟩] "t"
    (by intro r hr; simp [riceState] at hr; simp [hr, riceState])
    (List.pairwise_singleton _ _)
  simpa [toItem] using h.2.2.2.1

/-! ### Analytics aggregation (C8) -/

/-- All items of all distribution records, in order. -/
def allDistItems (logs : List DistributionRecord) : List DistItem :=
  (logs.map DistributionRecord.items).flatten

/-- Total quantity distributed under an exact item name within a plain item
list. -/
def itemTotal (items : List DistItem) (nm : String) : Int :=
  ((items.filter (fun it => it.name == nm)).map DistItem.quantity).sum

/-- Total quantity distributed under an exact item name across all
distribution records. -/
def totalFor (logs : List DistributionRecord) (nm : String) : Int :=
  itemTotal (allDistItems logs) nm

theorem aggregateCounts_eq_flat (logs : List DistributionRecord) :
    aggregateCounts logs
      = (allDistItems logs).foldl (fun a it => aggUpdate a it.name it.quantity) [] := by
  suffices h : ∀ (ls : List DistributionRecord) (acc : List (String × Int)),
      ls.foldl (fun a record =>
          record.items.foldl (fun a2 it => aggUpdate a2 it.name it.quantity) a) acc
        = (allDistItems ls).foldl (fun a it => aggUpdate a it.name it.quantity) acc by
    exact h logs []
  intro ls
  induction ls with
  | nil => intro acc; rfl
  | cons record rest ih =>
    intro acc
    show rest.foldl _ (record.items.foldl _ acc) = (allDistItems (record :: rest)).foldl _ acc
    rw [ih]
    show _ = ((record :: rest).map DistributionRecord.items).flatten.foldl _ acc
    rw [List.map_cons, List.flatten_cons, List.foldl_append]
    rfl

theorem itemTotal_append_single (seen : List DistItem) (it : DistItem) (nm : String) :
    itemTotal (seen ++ [it]) nm
      = itemTotal seen nm + (if it.name = nm then it.quantity else 0) := by
  by_cases h : it.name = nm <;>
    simp [itemTotal, List.filter_append, h]

theorem itemTotal_eq_zero (seen : List DistItem) (nm : String)
    (h : ∀ m ∈ seen, m.name ≠ nm) : itemTotal seen nm = 0 := by
  have hnil : seen.filter (fun it => it.name == nm) = [] :=
    List.filter_eq_nil_iff.mpr (fun a ha => by simpa using h a ha)
  simp [itemTotal, hnil]

theorem aggUpdate_invariant (acc : List (String × Int)) (seen : List DistItem) (it : DistItem)
    (hinv : ∀ nm t, (nm, t) ∈ acc ↔ ((∃ m ∈ seen, m.name = nm) ∧ t = itemTotal seen nm)) :
    ∀ nm t, (nm, t) ∈ aggUpdate acc it.name it.quantity ↔
      ((∃ m ∈ seen ++ [it], m.name = nm) ∧ t = itemTotal (seen ++ [it]) nm) := by
  intro nm t
  unfold aggUpdate
  rw [itemTotal_append_single]
  by_cases hany : acc.any (fun p => p.1 == it.name) = true
  · rw [if_pos hany, List.mem_map]
    by_cases hnm : nm = it.name
    · rw [if_pos hnm.symm]
      constructor
      · rintro ⟨⟨p1, p2⟩, hp, hfp⟩
        refine ⟨⟨it, by simp [hnm]⟩, ?_⟩
        by_cases hp1 : p1 = it.name
        · rw [if_pos (by simpa using hp1)] at hfp
          injection hfp with h1 h2
          have hold := (hinv p1 p2).mp hp
          have h1e : p1 = nm := h1
          rw [← h2, hold.2, h1e]
        · rw [if_neg (by simpa using hp1)] at hfp
          injection hfp with h1 h2
          exact absurd (h1.trans hnm) hp1
      · rintro ⟨-, ht⟩
        obtain ⟨⟨q1, q2⟩, hq, hq1b⟩ := List.any_eq_true.mp hany
        have hq1e : q1 = it.name := by simpa using hq1b
        have hold := (hinv q1 q2).mp hq
        refine ⟨(q1, q2), hq, ?_⟩
        rw [if_pos (by simpa using hq1e)]
        rw [hold.2, hq1e, ← hnm, ht]
    · rw [if_neg (fun hh => hnm hh.symm)]
      have hiff : (∃ m ∈ seen ++ [it], m.name = nm) ↔ (∃ m ∈ seen, m.name = nm) := by
        constructor
        · rintro ⟨m, hm, hmn⟩
          rcases List.mem_append.mp hm with h | h
          · exact ⟨m, h, hmn⟩
          · simp only [List.mem_singleton] at h
            exact absurd (h ▸ hmn) (fun hh => hnm hh.symm)
        · rintro ⟨m, hm, hmn⟩
          exact ⟨m, List.mem_append.mpr (Or.inl hm), hmn⟩
      rw [hiff, Int.add_zero, ← hinv nm t]
      constructor
      · rintro ⟨⟨p1, p2⟩, hp, hfp⟩
        by_cases hp1 : p1 = it.name
        · rw [if_pos (by simpa using hp1)] at hfp
          injection hfp with h1 h2
          exact absurd (h1 ▸ hp1) hnm
        · rw [if_neg (by simpa using hp1)] at hfp
          rw [← hfp]
          exact hp
      · intro hp
        refine ⟨(nm, t), hp, ?_⟩
        rw [if_neg (by simpa using hnm)]
  · rw [if_neg hany, List.mem_append]
    have hnone : ∀ p ∈ acc, (p : String × Int).1 ≠ it.name := by
      intro p hp hpe
      exact hany (List.any_eq_true.mpr ⟨p, hp, by simpa using hpe⟩)
    have hnoseen : ∀ m ∈ seen, m.name ≠ it.name := by
      intro m hm hme
      have hmem := (hinv it.name (itemTotal seen it.name)).mpr ⟨⟨m, hm, hme⟩, rfl⟩
      exact hnone _ hmem rfl
    by_cases hnm : nm = it.name
    · rw [if_pos hnm.symm]
      have hzero : itemTotal seen nm = 0 :=
        itemTotal_eq_zero seen nm (fun m hm hh => hnoseen m hm (hh.trans hnm))
      constructor
      · rintro (hin | hin)
        · exact absurd hnm (hnone _ hin)
        · simp only [List.mem_singleton] at hin
          injection hin with h1 h2
          refine ⟨⟨it, by simp [hnm]⟩, ?_⟩
          rw [hzero, Int.zero_add, h2]
      · rintro ⟨-, ht⟩
        right
        rw [hzero, Int.zero_add] at ht
        simp only [List.mem_singleton]
        rw [ht, hnm]
    · rw [if_neg (fun hh => hnm hh.symm), Int.add_zero]
      have hiff : (∃ m ∈ seen ++ [it], m.name = nm) ↔ (∃ m ∈ seen, m.name = nm) := by
        constructor
        · rintro ⟨m, hm, hmn⟩
          rcases List.mem_append.mp hm with h | h
          · exact ⟨m, h, hmn⟩
          · simp only [List.mem_singleton] at h
            exact absurd (h ▸ hmn) (fun hh => hnm hh.symm)
        · rintro ⟨m, hm, hmn⟩
          exact ⟨m, List.mem_append.mpr (Or.inl hm), hmn⟩
      rw [hiff, ← hinv nm t]
      constructor
      · rintro (hin | hin)
        · exact hin
        · simp only [List.mem_singleton] at hin
          injection hin with h1 h2
          exact absurd h1 hnm
      · intro hp
        exact Or.inl hp

theorem aggFold_mem :
    ∀ (items : List DistItem) (acc : List (String × Int)) (seen : List DistItem),
      (∀ nm t, (nm, t) ∈ acc ↔ ((∃ m ∈ seen, m.name = nm) ∧ t = itemTotal seen nm)) →
      ∀ nm t, (nm, t) ∈ items.foldl (fun a it => aggUpdate a it.name it.quantity) acc ↔
        ((∃ m ∈ seen ++ items, m.name = nm) ∧ t = itemTotal (seen ++ items) nm) := by
  intro items
  induction items with
  | nil =>
    intro acc seen hinv nm t
    simpa using hinv nm t
  | cons it rest ih =>
    intro acc seen hinv nm t
    have hstep := aggUpdate_invariant acc seen it hinv
    have hrec := ih (aggUpdate acc it.name it.quantity) (seen ++ [it]) hstep nm t
    have hl : (seen ++ [it]) ++ rest = seen ++ it :: rest := by simp
    rw [hl] at hrec
    rw [List.foldl_cons]
    exact hrec

theorem aggregateCounts_mem (logs : List DistributionRecord) :
    ∀ nm t, (nm, t) ∈ aggregateCounts logs ↔
      ((∃ m ∈ allDistItems logs, m.name = nm) ∧ t = totalFor logs nm) := by
  intro nm t
  rw [aggregateCounts_eq_flat]
  have hbase : ∀ (nm2 : String) (t2 : Int),
      (nm2, t2) ∈ ([] : List (String × Int)) ↔
        ((∃ m ∈ ([] : List DistItem), m.name = nm2) ∧ t2 = itemTotal [] nm2) := by
    intro nm2 t2
    constructor
    · intro h
      simp at h
    · rintro ⟨⟨m, hm, -⟩, -⟩
      simp at hm
  have := aggFold_mem (allDistItems logs) [] [] hbase nm t
  simpa [totalFor] using this

/-- A sample state matching spec Scenario 5: distributions of Rice 4 and
Beans 2, then Rice 6. -/
def sampleDistState : PantryState :=
  { store := [], inventory := [], donations_log := [],
    distributions_log :=
      [⟨"H1", 2, [⟨"Rice", 4⟩, ⟨"Beans", 2⟩], "d"⟩, ⟨"H2", 3, [⟨"Rice", 6⟩], "d"⟩],
    household_queue := [], next_household_id := 1 }

theorem analyticsLe_trans : ∀ (a b c : String × Int),
    (fun a b : String × Int => decide (b.2 ≤ a.2)) a b = true →
    (fun a b : String × Int => decide (b.2 ≤ a.2)) b c = true →
    (fun a b : String × Int => decide (b.2 ≤ a.2)) a c = true := by
  intro a b c hab hbc
  simp only [decide_eq_true_eq] at hab hbc ⊢
  omega

theorem analyticsLe_total : ∀ (a b : String × Int),
    ((fun a b : String × Int => decide (b.2 ≤ a.2)) a b
      || (fun a b : String × Int => decide (b.2 ≤ a.2)) b a) = true := by
  intro a b
  simp only [Bool.or_eq_true, decide_eq_true_eq]
  omega

/-- C8: `get_analytics_data` returns the per-exact-name totals of all
distribution records — a permutation of the discovery-ordered aggregation —
sorted descending by total, with ties kept in first-discovery order (the sort
is stable), and membership is exactly (name that occurs, its exact-string
total); on the spec's Scenario 5 input it returns [Rice 10, Beans 2]. -/
theorem C8_analytics (s : PantryState) :
    List.Perm (get_analytics_data s) (aggregateCounts s.distributions_log)
    ∧ List.Pairwise (fun a b : String × Int => b.2 ≤ a.2) (get_analytics_data s)
    ∧ (∀ a b : String × Int, List.Sublist [a, b] (aggregateCounts s.distributions_log) →
        a.2 = b.2 → List.Sublist [a, b] (get_analytics_data s))
    ∧ (∀ nm t, (nm, t) ∈ get_analytics_data s ↔
        ((∃ m ∈ allDistItems s.distributions_log, m.name = nm)
          ∧ t = totalFor s.distributions_log nm))
    ∧ get_analytics_data sampleDistState = [("Rice", 10), ("Beans", 2)] := by
  refine ⟨List.mergeSort_perm _ _, ?_, ?_, ?_, ?_⟩
  · have h := List.sorted_mergeSort analyticsLe_trans analyticsLe_total
      (aggregateCounts s.distributions_log)
    exact h.imp (fun hab => by simpa using hab)
  · intro a b hsub heq
    exact List.pair_sublist_mergeSort analyticsLe_trans analyticsLe_total
      (by simp [heq]) hsub
  · intro nm t
    rw [show get_analytics_data s
        = (aggregateCounts s.distributions_log).mergeSort
            (fun a b => decide (b.2 ≤ a.2)) from rfl,
      List.mem_mergeSort]
    exact aggregateCounts_mem s.distributions_log nm t
  · show (aggregateCounts sampleDistState.distributions_log).mergeSort
        (fun a b => decide (b.2 ≤ a.2)) = _
    rw [show aggregateCounts sampleDistState.distributions_log
        = [("Rice", 10), ("Beans", 2)] from by decide]
    exact List.mergeSort_of_sorted (by decide)

/-- Witness for C8 at a concrete input: Scenario 5 of the spec. -/
theorem C8_witness :
    get_analytics_data sampleDistState = [("Rice", 10), ("Beans", 2)] :=
  (C8_analytics sampleDistState).2.2.2.2
